import Mathlib

/-!
Shallow embedding of x86-feature-check.py.

The program classifies a CPU into x86-64 microarchitecture levels from the
flags lines of /proc/cpuinfo.  Strings are modelled as lists of characters
where the source manipulates them character by character; flag sets are
modelled as `Finset String` (the source uses a Python set of strings);
Python exceptions are modelled with `Except String`.
-/

/-- Whitespace as matched by the regex class backslash-s and by str.strip,
restricted to ASCII (the inputs of this program are ASCII). -/
def pyIsSpace (c : Char) : Bool :=
  c = ' ' || c = '\t' || c = '\n' || c = '\r' || c = Char.ofNat 11 || c = Char.ofNat 12

/-- Word characters as matched by the regex class backslash-w, restricted
to ASCII. -/
def pyIsWord (c : Char) : Bool :=
  c.isAlphanum || c = '_'

/-- Python str.split(sep) for a one-character separator: splits at every
occurrence of the separator and keeps empty fields, so the result always
has at least one element. -/
def pysplitChar (sep : Char) : List Char → List (List Char)
  | [] => [[]]
  | c :: rest =>
    match pysplitChar sep rest with
    | [] => [[c]]
    | h :: t => if c = sep then [] :: h :: t else (c :: h) :: t

/-- Python str.strip(): remove leading and trailing whitespace. -/
def pystrip (l : List Char) : List Char :=
  ((l.dropWhile pyIsSpace).reverse.dropWhile pyIsSpace).reverse

/-- Python sep.join for a one-character separator. -/
def icCh (c : Char) : List (List Char) → List Char
  | [] => []
  | [x] => x
  | x :: y :: t => x ++ c :: icCh c (y :: t)

/-- Worker for Python str.split() with no argument: fields are maximal
runs of non-whitespace, empty fields are dropped.  The accumulator holds
the current field reversed. -/
def splitWsGo : List Char → List Char → List (List Char)
  | [], acc => if acc.isEmpty then [] else [acc.reverse]
  | c :: rest, acc =>
    if pyIsSpace c then
      if acc.isEmpty then splitWsGo rest [] else acc.reverse :: splitWsGo rest []
    else
      splitWsGo rest (c :: acc)

/-- Python str.split() with no argument. -/
def pysplitWs (l : List Char) : List (List Char) :=
  splitWsGo l []

/-- One attempted match of the compiled regex
caret (flags) (ws* colon ws*) (anychar*) dollar
in MULTILINE mode at the current position (the caller guarantees the
position is a line start).  Returns the third group and the remainder of
the input after the match.  Greedy ws* runs never backtrack here: the
first must be followed by the colon (a non-whitespace character) and the
second is followed by anychar* dollar which accepts any position, so both
are the maximal whitespace runs (which may cross newlines, as in Python).
The third group is everything up to the next newline or the end. -/
def matchFlagsAt (s : List Char) : Option (List Char × List Char) :=
  if s.take 5 = "flags".toList then
    let s2 := (s.drop 5).dropWhile pyIsSpace
    match s2 with
    | ':' :: s3 =>
      let s4 := s3.dropWhile pyIsSpace
      let g3 := s4.takeWhile (fun c => !(c = '\n'))
      some (g3, s4.drop g3.length)
    | _ => none
  else none

/-- Scanner for re.findall with the flags-line regex: attempt a match at
every line start, emit the third group of each match and continue after
it.  Every match consumes at least one character, so fuel equal to the
length of the input plus one is always sufficient. -/
def findFlagsGo : Nat → List Char → Bool → List (List Char)
  | 0, _, _ => []
  | _ + 1, [], _ => []
  | fuel + 1, c :: rest, atStart =>
    if atStart then
      match matchFlagsAt (c :: rest) with
      | some (g3, r) => g3 :: findFlagsGo fuel r false
      | none => findFlagsGo fuel rest (c = '\n')
    else
      findFlagsGo fuel rest (c = '\n')

/-- re.findall of the flags-line regex over a whole text, third groups
only (the source subscripts each match tuple at index 2). -/
def findFlags (s : List Char) : List (List Char) :=
  findFlagsGo (s.length + 1) s true

/-- extract_cpu_flags: split the text into lines, strip each line, rejoin
with newlines, find all flags lines, normalise each match with a
whitespace split and a space join, then split each normalised line on
single spaces and collect every token into a set. -/
def extract_cpu_flags (cpuinfo : String) : Finset String :=
  let lines := (pysplitChar '\n' cpuinfo.toList).map pystrip
  let joined := icCh '\n' lines
  let flag_lines := (findFlags joined).map (fun g => icCh ' ' (pysplitWs g))
  let toks := (flag_lines.map (fun l => pysplitChar ' ' l)).flatten
  (toks.map (fun l => String.mk l)).toFinset

/-- A value of the FLAG_NAMES dictionary: either a single flag spelling or
a list of alternative spellings. -/
inductive PyFlagVal where
  | one : String → PyFlagVal
  | many : List String → PyFlagVal
deriving DecidableEq

/-- The static FLAG_NAMES dictionary, in source order. -/
def FLAG_NAMES : List (String × PyFlagVal) := [
  ("AVX2", .one "avx2"),
  ("AVX512BW", .one "avx512bw"),
  ("AVX512CD", .one "avx512cd"),
  ("AVX512DQ", .one "avx512dq"),
  ("AVX512F", .one "avx512f"),
  ("AVX512VL", .one "avx512vl"),
  ("AVX", .one "avx"),
  ("BMI1", .one "bmi1"),
  ("BMI2", .one "bmi2"),
  ("CMOV", .one "cmov"),
  ("CMPXCHG16B", .one "cx16"),
  ("CMPXCHG8B", .one "cx8"),
  ("F16C", .one "f16c"),
  ("FMA", .one "fma"),
  ("FPU", .one "fpu"),
  ("FXSR", .many ["fxsr", "fxsr_opt"]),
  ("LAHF", .one "lahf_lm"),
  ("LZCNT", .one "abm"),
  ("MMX", .many ["mmx", "mmxext"]),
  ("MOVBE", .one "movbe"),
  ("OSXSAVE", .one "xsave"),
  ("POPCNT", .many ["popcnt", "abm"]),
  ("SCE", .one "syscall"),
  ("SSE2", .one "sse2"),
  ("SSE3", .many ["sse3", "ssse3", "pni"]),
  ("SSE4-1", .one "sse4_1"),
  ("SSE4-2", .one "sse4_2"),
  ("SSE", .one "sse"),
  ("SSSE3", .one "ssse3")]

def X86_64_REQUIRED_FEATURES : List String :=
  ["CMOV", "CMPXCHG8B", "FPU", "FXSR", "MMX", "SCE", "SSE", "SSE2"]

def X86_64_V2_REQUIRED_FEATURES : List String :=
  ["CMPXCHG16B", "LAHF", "POPCNT", "SSE3", "SSE4-1", "SSE4-2", "SSSE3"]

def X86_64_V3_REQUIRED_FEATURES : List String :=
  ["AVX", "AVX2", "BMI1", "BMI2", "F16C", "FMA", "LZCNT", "MOVBE", "OSXSAVE"]

def X86_64_V4_REQUIRED_FEATURES : List String :=
  ["AVX512BW", "AVX512CD", "AVX512DQ", "AVX512F", "AVX512VL"]

/-- has_feature: look the feature up in FLAG_NAMES (an unknown feature is
an exception, modelled as an error), turn a single spelling into a
one-element list, and test whether any spelling is a member of the flag
set (True in the generator of membership tests). -/
def has_feature (flags : Finset String) (feature : String) : Except String Bool :=
  match List.lookup feature FLAG_NAMES with
  | none => .error ("Unknown feature flag \"" ++ feature ++ "\"")
  | some v =>
    let required_flags := match v with
      | .one s => [s]
      | .many l => l
    .ok (required_flags.any (fun f => decide (f ∈ flags)))

/-- The list of registered spellings of a feature (empty for an unknown
feature); convenience view of the FLAG_NAMES lookup. -/
def spellings (feature : String) : List String :=
  match List.lookup feature FLAG_NAMES with
  | none => []
  | some (.one s) => [s]
  | some (.many l) => l

/-- supports_feature_set: not False in the lazy generator of has_feature
results, so the walk stops at the first False and an exception raised by
has_feature before that propagates. -/
def supports_feature_set (flags : Finset String) (featureset : List String) :
    Except String Bool :=
  match featureset with
  | [] => .ok true
  | f :: rest =>
    match has_feature flags f with
    | .error e => .error e
    | .ok false => .ok false
    | .ok true => supports_feature_set flags rest

/-- The module-level names of the script, as iterated by globals()
(dunder entries omitted: none of them can match the discovery pattern). -/
def moduleGlobals : List String :=
  ["re", "sys", "argparse", "Dict", "List", "Set", "Union",
   "FLAG_NAMES",
   "X86_64_REQUIRED_FEATURES", "X86_64_V2_REQUIRED_FEATURES",
   "X86_64_V3_REQUIRED_FEATURES", "X86_64_V4_REQUIRED_FEATURES",
   "main", "get_cpuinfo", "extract_cpu_flags", "get_current_cpu_flags",
   "has_feature", "supports_feature_set", "get_supported_feature_sets"]

/-- The module-level bindings that hold a required-features list, for the
globals()[name] lookups. -/
def featureSetVars : List (String × List String) := [
  ("X86_64_REQUIRED_FEATURES", X86_64_REQUIRED_FEATURES),
  ("X86_64_V2_REQUIRED_FEATURES", X86_64_V2_REQUIRED_FEATURES),
  ("X86_64_V3_REQUIRED_FEATURES", X86_64_V3_REQUIRED_FEATURES),
  ("X86_64_V4_REQUIRED_FEATURES", X86_64_V4_REQUIRED_FEATURES)]

/-- Does the pattern occur at the head of the list. -/
def hasPref (pat l : List Char) : Bool :=
  l.take pat.length = pat

/-- Search for the largest k not exceeding the given bound such that the
literal tail of the discovery pattern occurs right after the first k
characters of rest; this is the greedy backtracking of the word-character
star in the pattern. -/
def findExtra (rest : List Char) : Nat → Option Nat
  | 0 => if hasPref "_REQUIRED_FEATURES".toList rest then some 0 else none
  | k + 1 =>
    if hasPref "_REQUIRED_FEATURES".toList (rest.drop (k + 1)) then some (k + 1)
    else findExtra rest k

/-- re.match of the discovery pattern: the name must start with the
literal X86 64 head, then a greedy run of word characters, then the
literal required-features tail; trailing characters are allowed since
re.match does not anchor the end.  Returns group 1. -/
def matchReqFeatures (name : String) : Option String :=
  let cs := name.toList
  if hasPref "X86_64".toList cs then
    let rest := cs.drop 6
    match findExtra rest (rest.takeWhile pyIsWord).length with
    | some k => some (String.mk ("X86_64".toList ++ rest.take k))
    | none => none
  else none

/-- Python str.lower, restricted to ASCII. -/
def pyLower (s : String) : String :=
  String.mk (s.toList.map Char.toLower)

/-- Python string comparison: lexicographic on code points. -/
def strLtB : List Char → List Char → Bool
  | [], [] => false
  | [], _ :: _ => true
  | _ :: _, [] => false
  | a :: as, b :: bs =>
    if a.val < b.val then true
    else if b.val < a.val then false
    else strLtB as bs

/-- Lexicographic comparison of string pairs, as Python compares tuples. -/
def pairLeB (p q : String × String) : Bool :=
  strLtB p.1.toList q.1.toList ||
    (decide (p.1.toList = q.1.toList) && !(strLtB q.2.toList p.2.toList))

/-- Insert into a sorted list of pairs. -/
def insSorted (p : String × String) : List (String × String) → List (String × String)
  | [] => [p]
  | q :: rest => if pairLeB p q then p :: q :: rest else q :: insSorted p rest

/-- list.sort() on pairs of strings. -/
def sortPairs (l : List (String × String)) : List (String × String) :=
  l.foldr insSorted []

/-- The discovery loop of get_supported_feature_sets: scan globals() for
names matching the pattern, pair each variable name with the lowercased
group 1, and sort. -/
def all_feature_sets : List (String × String) :=
  sortPairs (moduleGlobals.filterMap
    (fun v => (matchReqFeatures v).map (fun g1 => (v, pyLower g1))))

/-- The evaluation loop of get_supported_feature_sets over the discovered
tiers: look the variable up in the module bindings (a missing binding
would be a KeyError) and keep the tier name when its feature set is
supported; an exception from supports_feature_set propagates. -/
def goTiers (flags : Finset String) :
    List (String × String) → Except String (List String)
  | [] => .ok []
  | (v, name) :: rest =>
    match List.lookup v featureSetVars with
    | none => .error ("KeyError: " ++ v)
    | some fs =>
      match supports_feature_set flags fs with
      | .error e => .error e
      | .ok true =>
        match goTiers flags rest with
        | .error e => .error e
        | .ok l => .ok (name :: l)
      | .ok false => goTiers flags rest

/-- get_supported_feature_sets. -/
def get_supported_feature_sets (flags : Finset String) :
    Except String (List String) :=
  goTiers flags all_feature_sets

/-- Observable outcome of one run of main: exit status and the lines
printed on standard output and standard error. -/
structure RunResult where
  exitCode : Nat
  stdoutLines : List String
  stderrLines : List String
deriving DecidableEq

/-- The part of main after the flag set has been obtained: report and
choose the exit status.  An uncaught exception is modelled as an error. -/
def mainWithFlags (allMode : Bool) (flags : Finset String) :
    Except String RunResult :=
  match get_supported_feature_sets flags with
  | .error e => .error e
  | .ok feature_sets =>
    if feature_sets.length = 0 then
      .ok ⟨1, [], ["No x86-64 feature set fully supported!"]⟩
    else if allMode then
      .ok ⟨0, [String.intercalate " " feature_sets], []⟩
    else
      .ok ⟨0, [feature_sets.getLastD ""], []⟩

/-- main, as a function of the text read from /proc/cpuinfo (the single
read of get_cpuinfo is the only input of the program). -/
def runMain (allMode : Bool) (cpuinfo : String) : Except String RunResult :=
  mainWithFlags allMode (extract_cpu_flags cpuinfo)

/-- Boolean form of tier support: every feature of the list has some
registered spelling in the flag set. -/
def tierB (flags : Finset String) (fs : List String) : Bool :=
  fs.all (fun f => (spellings f).any (fun s => decide (s ∈ flags)))

/-- The four tier names produced by the discovery, in discovery order. -/
def tierNames : List String := ["x86_64", "x86_64_v2", "x86_64_v3", "x86_64_v4"]

/-- The flag set of end-to-end scenario A of the specification. -/
def scenarioAFlags : Finset String :=
  {"cmov", "cx8", "fpu", "fxsr", "mmx", "syscall", "sse", "sse2"}

/-- A crafted flag set that spells every v3 required feature (note that
abm spells both LZCNT and POPCNT) while spelling no CMPXCHG16B, so the v2
tier cannot be satisfied. -/
def craftedV3Flags : Finset String :=
  {"avx", "avx2", "bmi1", "bmi2", "f16c", "fma", "abm", "movbe", "xsave"}

/-- A synthetic two-line capability text: two flags lines carrying the
given token lists. -/
def twoFlagLines (a b : List String) : String :=
  String.mk (("flags : ".toList ++ icCh ' ' (a.map String.toList)) ++
    '\n' :: ("flags : ".toList ++ icCh ' ' (b.map String.toList)))

/-- A token is well formed when it is nonempty and free of whitespace. -/
def cleanToken (t : String) : Prop :=
  t ≠ "" ∧ ∀ c ∈ t.toList, ¬ pyIsSpace c

/-! ## Helper lemmas about the feature tables -/

lemma lookup_none_iff (k : String) (l : List (String × PyFlagVal)) :
    List.lookup k l = none ↔ k ∉ l.map Prod.fst := by
  induction l with
  | nil => simp [List.lookup]
  | cons p rest ih =>
    obtain ⟨a, v⟩ := p
    by_cases h : k = a
    · subst h
      simp [List.lookup]
    · rw [List.lookup, show (k == a) = false from beq_eq_false_iff_ne.mpr h]
      simp [ih, h]

lemma has_feature_eq (flags : Finset String) (f : String) (v : PyFlagVal)
    (h : List.lookup f FLAG_NAMES = some v) :
    has_feature flags f = .ok ((spellings f).any (fun s => decide (s ∈ flags))) := by
  cases v <;> simp [has_feature, spellings, h]

lemma supports_eq_ok (flags : Finset String) (fs : List String)
    (h : ∀ f ∈ fs, (List.lookup f FLAG_NAMES).isSome) :
    supports_feature_set flags fs = .ok (tierB flags fs) := by
  induction fs with
  | nil => simp [supports_feature_set, tierB]
  | cons f rest ih =>
    obtain ⟨v, hv⟩ := Option.isSome_iff_exists.mp (h f (List.mem_cons_self f rest))
    rw [supports_feature_set, has_feature_eq flags f v hv]
    cases hb : (spellings f).any (fun s => decide (s ∈ flags)) with
    | false => simp [tierB, hb]
    | true =>
      rw [ih (fun g hg => h g (List.mem_cons_of_mem f hg))]
      simp [tierB, hb]

lemma afs_eq : all_feature_sets = [
    ("X86_64_REQUIRED_FEATURES", "x86_64"),
    ("X86_64_V2_REQUIRED_FEATURES", "x86_64_v2"),
    ("X86_64_V3_REQUIRED_FEATURES", "x86_64_v3"),
    ("X86_64_V4_REQUIRED_FEATURES", "x86_64_v4")] := rfl

lemma goTiers_step (flags : Finset String) (v name : String)
    (rest : List (String × String)) (fs : List String)
    (hfs : List.lookup v featureSetVars = some fs)
    (hk : ∀ f ∈ fs, (List.lookup f FLAG_NAMES).isSome) :
    goTiers flags ((v, name) :: rest) =
      match goTiers flags rest with
      | .error e => .error e
      | .ok l => .ok ((if tierB flags fs then [name] else []) ++ l) := by
  simp only [goTiers, hfs, supports_eq_ok flags fs hk]
  cases htb : tierB flags fs <;> cases hg : goTiers flags rest <;> simp

lemma get_eq (flags : Finset String) :
    get_supported_feature_sets flags = .ok (
      (if tierB flags X86_64_REQUIRED_FEATURES then ["x86_64"] else []) ++
      (if tierB flags X86_64_V2_REQUIRED_FEATURES then ["x86_64_v2"] else []) ++
      (if tierB flags X86_64_V3_REQUIRED_FEATURES then ["x86_64_v3"] else []) ++
      (if tierB flags X86_64_V4_REQUIRED_FEATURES then ["x86_64_v4"] else [])) := by
  rw [get_supported_feature_sets, afs_eq]
  rw [goTiers_step flags "X86_64_REQUIRED_FEATURES" "x86_64"
      [("X86_64_V2_REQUIRED_FEATURES", "x86_64_v2"),
       ("X86_64_V3_REQUIRED_FEATURES", "x86_64_v3"),
       ("X86_64_V4_REQUIRED_FEATURES", "x86_64_v4")]
      X86_64_REQUIRED_FEATURES rfl (by decide),
    goTiers_step flags "X86_64_V2_REQUIRED_FEATURES" "x86_64_v2"
      [("X86_64_V3_REQUIRED_FEATURES", "x86_64_v3"),
       ("X86_64_V4_REQUIRED_FEATURES", "x86_64_v4")]
      X86_64_V2_REQUIRED_FEATURES rfl (by decide),
    goTiers_step flags "X86_64_V3_REQUIRED_FEATURES" "x86_64_v3"
      [("X86_64_V4_REQUIRED_FEATURES", "x86_64_v4")]
      X86_64_V3_REQUIRED_FEATURES rfl (by decide),
    goTiers_step flags "X86_64_V4_REQUIRED_FEATURES" "x86_64_v4" []
      X86_64_V4_REQUIRED_FEATURES rfl (by decide)]
  cases tierB flags X86_64_REQUIRED_FEATURES <;>
    cases tierB flags X86_64_V2_REQUIRED_FEATURES <;>
      cases tierB flags X86_64_V3_REQUIRED_FEATURES <;>
        cases tierB flags X86_64_V4_REQUIRED_FEATURES <;>
          simp [goTiers]

lemma tierB_iff (flags : Finset String) (fs : List String) :
    tierB flags fs = true ↔ ∀ f ∈ fs, ∃ s ∈ spellings f, s ∈ flags := by
  simp [tierB, List.all_eq_true, List.any_eq_true]

/-! ## Claims about the tier evaluator and reporting -/

/-- Claim C1, counterexample: on the scenario A flag set the program
returns the tier name "x86_64", which is not one of the hyphenated names
the claim allows. -/
theorem C1_counterexample :
    get_supported_feature_sets scenarioAFlags = .ok ["x86_64"] ∧
    "x86_64" ∉ ["x86-64", "x86-64-v2", "x86-64-v3", "x86-64-v4"] := by
  exact ⟨rfl, by decide⟩

/-- Claim C1, amended: every tier name in the list returned by
get_supported_feature_sets is one of "x86_64", "x86_64_v2", "x86_64_v3",
"x86_64_v4" (the lowercased variable-name stems, with underscores). -/
theorem C1_amended (flags : Finset String) (l : List String) (n : String)
    (hl : get_supported_feature_sets flags = .ok l) (hn : n ∈ l) :
    n ∈ tierNames := by
  rw [get_eq flags] at hl
  have h := Except.ok.inj hl
  subst h
  simp only [List.mem_append] at hn
  rcases hn with ((h | h) | h) | h <;>
    · split at h <;> simp_all [tierNames]

/-- Witness for the amended claim C1 at the scenario A flag set. -/
theorem C1_amended_witness : ("x86_64" : String) ∈ tierNames :=
  C1_amended scenarioAFlags ["x86_64"] "x86_64" rfl (by decide)

/-- Claim C2: for every flag set and every registered tier,
supports_feature_set returns true exactly when every required feature of
the tier has at least one registered spelling in the flag set. -/
theorem C2_supports_iff (flags : Finset String) (T : List String)
    (hT : T ∈ [X86_64_REQUIRED_FEATURES, X86_64_V2_REQUIRED_FEATURES,
      X86_64_V3_REQUIRED_FEATURES, X86_64_V4_REQUIRED_FEATURES]) :
    supports_feature_set flags T = .ok true ↔
      ∀ f ∈ T, ∃ s ∈ spellings f, s ∈ flags := by
  have hk : ∀ f ∈ T, (List.lookup f FLAG_NAMES).isSome := by
    simp only [List.mem_cons, List.not_mem_nil, or_false] at hT
    rcases hT with rfl | rfl | rfl | rfl <;> decide
  rw [supports_eq_ok flags T hk]
  simp only [Except.ok.injEq]
  exact tierB_iff flags T

/-- Witness for claim C2: the baseline tier on the scenario A flag set. -/
theorem C2_witness :
    supports_feature_set scenarioAFlags X86_64_REQUIRED_FEATURES = .ok true ↔
      ∀ f ∈ X86_64_REQUIRED_FEATURES, ∃ s ∈ spellings f, s ∈ scenarioAFlags :=
  C2_supports_iff scenarioAFlags X86_64_REQUIRED_FEATURES (by simp)

/-- Claim C3: tiers are evaluated independently; a flag set that spells
every v3 required feature while spelling none of some v2 required feature
yields a result that includes the v3 tier name and excludes the v2 tier
name, without raising. -/
theorem C3_independent_tiers (flags : Finset String)
    (h3 : ∀ f ∈ X86_64_V3_REQUIRED_FEATURES, ∃ s ∈ spellings f, s ∈ flags)
    (h2 : ∃ f ∈ X86_64_V2_REQUIRED_FEATURES, ∀ s ∈ spellings f, s ∉ flags) :
    ∃ l, get_supported_feature_sets flags = .ok l ∧
      "x86_64_v3" ∈ l ∧ "x86_64_v2" ∉ l := by
  have hb3 : tierB flags X86_64_V3_REQUIRED_FEATURES = true :=
    (tierB_iff flags _).mpr h3
  have hb2 : tierB flags X86_64_V2_REQUIRED_FEATURES = false := by
    rcases h2 with ⟨f, hf, hs⟩
    rw [← Bool.not_eq_true, tierB_iff flags _]
    intro hall
    rcases hall f hf with ⟨s, hsp, hmem⟩
    exact hs s hsp hmem
  cases h1 : tierB flags X86_64_REQUIRED_FEATURES <;>
    cases h4 : tierB flags X86_64_V4_REQUIRED_FEATURES <;>
      (refine ⟨_, get_eq flags, ?_, ?_⟩ <;> (rw [h1, hb2, hb3, h4]; decide))

/-- Witness for claim C3 at the crafted v3-but-not-v2 flag set. -/
theorem C3_witness :
    ∃ l, get_supported_feature_sets craftedV3Flags = .ok l ∧
      "x86_64_v3" ∈ l ∧ "x86_64_v2" ∉ l :=
  C3_independent_tiers craftedV3Flags (by decide) (by decide)

/-- Claim C4: has_feature raises exactly on feature names that are not
keys of FLAG_NAMES, and on known features it returns a boolean instead. -/
theorem C4_unknown_feature (flags : Finset String) (feature : String) :
    ((∃ e, has_feature flags feature = .error e) ↔
      feature ∉ FLAG_NAMES.map Prod.fst) ∧
    (feature ∈ FLAG_NAMES.map Prod.fst →
      ∃ b, has_feature flags feature = .ok b) := by
  constructor
  · constructor
    · rintro ⟨e, he⟩
      cases hl : List.lookup feature FLAG_NAMES with
      | none => exact (lookup_none_iff feature FLAG_NAMES).mp hl
      | some v =>
        rw [has_feature_eq flags feature v hl] at he
        cases he
    · intro hmem
      have hl := (lookup_none_iff feature FLAG_NAMES).mpr hmem
      exact ⟨"Unknown feature flag \"" ++ feature ++ "\"",
        by simp [has_feature, hl]⟩
  · intro hmem
    cases hl : List.lookup feature FLAG_NAMES with
    | none => exact absurd hmem ((lookup_none_iff feature FLAG_NAMES).mp hl)
    | some v => exact ⟨_, has_feature_eq flags feature v hl⟩

/-- Witness for claim C4: an unknown name errors, a known name returns a
boolean. -/
theorem C4_witness :
    (∃ e, has_feature ∅ "NOT_A_FEATURE" = .error e) ∧
    (∃ b, has_feature ∅ "CMOV" = .ok b) :=
  ⟨(C4_unknown_feature ∅ "NOT_A_FEATURE").1.mpr (by decide),
   (C4_unknown_feature ∅ "CMOV").2 (by decide)⟩

/-- Claim C6: an empty capability text yields the empty flag set, the
empty flag set yields the empty tier list, and main then prints a
diagnostic on standard error and exits nonzero, in both output modes. -/
theorem C6_empty_source_degrades :
    extract_cpu_flags "" = ∅ ∧
    get_supported_feature_sets ∅ = .ok [] ∧
    runMain false "" = .ok ⟨1, [], ["No x86-64 feature set fully supported!"]⟩ ∧
    runMain true "" = .ok ⟨1, [], ["No x86-64 feature set fully supported!"]⟩ :=
  ⟨by decide, rfl, rfl, rfl⟩

/-- Claim C7: a feature with several registered spellings is satisfied by
any one of them; in particular POPCNT is satisfied by the abm flag alone. -/
theorem C7_or_spellings :
    (∀ (flags : Finset String) (feature : String) (v : PyFlagVal),
      List.lookup feature FLAG_NAMES = some v →
      (has_feature flags feature = .ok true ↔
        ∃ s ∈ spellings feature, s ∈ flags)) ∧
    has_feature {"abm"} "POPCNT" = .ok true := by
  constructor
  · intro flags feature v hv
    rw [has_feature_eq flags feature v hv]
    simp [List.any_eq_true]
  · rfl

/-- Witness for claim C7 at the popcnt spelling of POPCNT. -/
theorem C7_witness : has_feature {"popcnt"} "POPCNT" = .ok true :=
  (C7_or_spellings.1 {"popcnt"} "POPCNT" (.many ["popcnt", "abm"]) rfl).mpr
    (by decide)

/-- Claim C8, counterexample: on the scenario A flag set the returned
list is ["x86_64"], not ["x86-64"] as the claim states. -/
theorem C8_counterexample :
    get_supported_feature_sets scenarioAFlags = .ok ["x86_64"] ∧
    get_supported_feature_sets scenarioAFlags ≠ .ok ["x86-64"] := by
  refine ⟨rfl, fun h => ?_⟩
  rw [show get_supported_feature_sets scenarioAFlags = .ok ["x86_64"] from rfl] at h
  exact absurd (Except.ok.inj h) (by decide)

/-- Claim C8, amended: on the scenario A flag set the tier list is
exactly ["x86_64"], the default report prints the single line x86_64, and
the exit status is 0. -/
theorem C8_amended :
    get_supported_feature_sets scenarioAFlags = .ok ["x86_64"] ∧
    mainWithFlags false scenarioAFlags = .ok ⟨0, ["x86_64"], []⟩ :=
  ⟨rfl, rfl⟩

/-- Claim C9: a text whose flags line has no tokens after the colon
produces the set containing just the empty string, which is a nonempty
set holding a non-token element. -/
theorem C9_empty_token :
    extract_cpu_flags "processor : 0\nflags :" = {""} ∧
    "" ∈ extract_cpu_flags "processor : 0\nflags :" ∧
    extract_cpu_flags "processor : 0\nflags :" ≠ ∅ :=
  ⟨by decide, by decide, by decide⟩

/-- Claim C10: every result of get_supported_feature_sets is a
duplicate-free subsequence of the fixed ordered list of the four tier
names. -/
theorem C10_sublist (flags : Finset String) (l : List String)
    (h : get_supported_feature_sets flags = .ok l) :
    l.Sublist tierNames ∧ l.Nodup := by
  rw [get_eq flags] at h
  have hl := Except.ok.inj h
  subst hl
  refine ⟨?_, ?_⟩ <;> split_ifs <;> decide

/-- Witness for claim C10 at the empty flag set. -/
theorem C10_witness : ([] : List String).Sublist tierNames ∧
    ([] : List String).Nodup :=
  C10_sublist ∅ [] rfl

/-! ## Lemmas about the extraction pipeline -/

lemma pysplitChar_ne_nil (sep : Char) (l : List Char) : pysplitChar sep l ≠ [] := by
  induction l with
  | nil => simp [pysplitChar]
  | cons c rest ih =>
    rw [pysplitChar]
    cases h : pysplitChar sep rest with
    | nil => simp
    | cons a t => by_cases hc : c = sep <;> simp [hc]

lemma pysplitChar_no_sep (sep : Char) (l : List Char) (h : sep ∉ l) :
    pysplitChar sep l = [l] := by
  induction l with
  | nil => rfl
  | cons c rest ih =>
    have hc : ¬ c = sep := fun e => h (e ▸ List.mem_cons_self c rest)
    have hrest : sep ∉ rest := fun hr => h (List.mem_cons_of_mem c hr)
    rw [pysplitChar, ih hrest]
    simp [hc]

lemma pysplitChar_append (sep : Char) (l1 l2 : List Char) (h : sep ∉ l1) :
    pysplitChar sep (l1 ++ sep :: l2) = l1 :: pysplitChar sep l2 := by
  induction l1 with
  | nil =>
    rw [List.nil_append, pysplitChar]
    cases hs : pysplitChar sep l2 with
    | nil => exact absurd hs (pysplitChar_ne_nil sep l2)
    | cons a t => simp
  | cons c m ih =>
    have hc : ¬ c = sep := fun e => h (e ▸ List.mem_cons_self c m)
    have hm : sep ∉ m := fun hr => h (List.mem_cons_of_mem c hr)
    rw [List.cons_append, pysplitChar, ih hm]
    simp [hc]

lemma pystrip_id (l : List Char)
    (hh : ∃ c m, l = c :: m ∧ ¬ pyIsSpace c)
    (ht : ∃ m d, l = m ++ [d] ∧ ¬ pyIsSpace d) : pystrip l = l := by
  obtain ⟨c, m, rfl, hc⟩ := hh
  obtain ⟨m2, d, he, hd⟩ := ht
  rw [pystrip, List.dropWhile_cons_of_neg hc]
  have h2 : (c :: m).reverse = d :: m2.reverse := by rw [he]; simp
  rw [h2, List.dropWhile_cons_of_neg hd, ← h2, List.reverse_reverse]

lemma icCh_cons (c : Char) (x y : List Char) (t : List (List Char)) :
    icCh c (x :: y :: t) = x ++ c :: icCh c (y :: t) := rfl

lemma icCh_mem (c : Char) (ls : List (List Char)) (a : Char)
    (ha : a ∈ icCh c ls) : a = c ∨ ∃ l ∈ ls, a ∈ l := by
  induction ls with
  | nil => simp [icCh] at ha
  | cons x t ih =>
    cases t with
    | nil =>
      right
      exact ⟨x, List.mem_cons_self x [], by simpa [icCh] using ha⟩
    | cons y t2 =>
      rw [icCh_cons] at ha
      rcases List.mem_append.mp ha with h | h
      · right
        exact ⟨x, List.mem_cons_self x (y :: t2), h⟩
      · rcases List.mem_cons.mp h with h1 | h2
        · left
          exact h1
        · rcases ih h2 with h3 | ⟨l, hl, hal⟩
          · left
            exact h3
          · right
            exact ⟨l, List.mem_cons_of_mem x hl, hal⟩

lemma toList_ne_nil (t : String) (h : t ≠ "") : t.toList ≠ [] := by
  intro h0
  apply h
  cases t with
  | mk d =>
    simp only [String.toList] at h0
    simp [h0]

lemma takeWhile_append_all (p : Char → Bool) (A r : List Char)
    (h : ∀ a ∈ A, p a) : (A ++ r).takeWhile p = A ++ r.takeWhile p := by
  induction A with
  | nil => simp
  | cons c m ih =>
    rw [List.cons_append, List.takeWhile_cons_of_pos (h c (List.mem_cons_self c m)),
      ih (fun a hamem => h a (List.mem_cons_of_mem c hamem)), List.cons_append]

lemma length_dropWhile_le' (p : Char → Bool) (l : List Char) :
    (l.dropWhile p).length ≤ l.length := by
  induction l with
  | nil => simp
  | cons c rest ih =>
    by_cases hc : p c
    · rw [List.dropWhile_cons_of_pos hc]
      exact Nat.le_succ_of_le ih
    · rw [List.dropWhile_cons_of_neg hc]

lemma J_head (ts : List String) (h : ts ≠ []) (hc : ∀ t ∈ ts, cleanToken t) :
    ∃ c r, icCh ' ' (ts.map String.toList) = c :: r ∧ ¬ pyIsSpace c := by
  cases ts with
  | nil => exact absurd rfl h
  | cons t rest =>
    obtain ⟨hne, hns⟩ := hc t (List.mem_cons_self t rest)
    obtain ⟨c, m, hcm⟩ := List.exists_cons_of_ne_nil (toList_ne_nil t hne)
    have hcns : ¬ pyIsSpace c := hns c (by rw [hcm]; exact List.mem_cons_self c m)
    cases rest with
    | nil => exact ⟨c, m, by simpa [icCh] using hcm, hcns⟩
    | cons u rest2 =>
      refine ⟨c, m ++ ' ' :: icCh ' ' ((u :: rest2).map String.toList), ?_, hcns⟩
      simp only [List.map_cons]
      rw [icCh_cons, hcm, List.cons_append]

lemma J_last (ts : List String) (h : ts ≠ []) (hc : ∀ t ∈ ts, cleanToken t) :
    ∃ r d, icCh ' ' (ts.map String.toList) = r ++ [d] ∧ ¬ pyIsSpace d := by
  induction ts with
  | nil => exact absurd rfl h
  | cons t rest ih =>
    cases rest with
    | nil =>
      obtain ⟨hne, hns⟩ := hc t (List.mem_cons_self t [])
      rcases t.toList.eq_nil_or_concat with h0 | ⟨r, d, hrd⟩
      · exact absurd h0 (toList_ne_nil t hne)
      · rw [List.concat_eq_append] at hrd
        refine ⟨r, d, by simpa [icCh] using hrd, ?_⟩
        exact hns d (by rw [hrd]; exact List.mem_append_right r (List.mem_cons_self d []))
    | cons u rest2 =>
      obtain ⟨r, d, hrd, hd⟩ := ih (List.cons_ne_nil u rest2)
        (fun x hx => hc x (List.mem_cons_of_mem t hx))
      refine ⟨t.toList ++ ' ' :: r, d, ?_, hd⟩
      simp only [List.map_cons] at hrd ⊢
      rw [icCh_cons, hrd]
      simp

lemma J_no_nl (ts : List String) (hc : ∀ t ∈ ts, cleanToken t) :
    ∀ a ∈ icCh ' ' (ts.map String.toList), ¬ a = '\n' := by
  intro a ha
  rcases icCh_mem ' ' _ a ha with rfl | ⟨l, hl, hal⟩
  · decide
  · obtain ⟨t, ht, rfl⟩ := List.mem_map.mp hl
    intro he
    exact (hc t ht).2 a hal (by rw [he]; decide)

lemma matchFlagsAt_line (J r : List Char)
    (hJhead : ∃ c m, J = c :: m ∧ ¬ pyIsSpace c)
    (hJnl : ∀ a ∈ J, ¬ a = '\n')
    (hr : r = [] ∨ ∃ r2, r = '\n' :: r2) :
    matchFlagsAt ("flags : ".toList ++ (J ++ r)) = some (J, r) := by
  have hshape : "flags : ".toList ++ (J ++ r) =
      'f' :: 'l' :: 'a' :: 'g' :: 's' :: (' ' :: ':' :: ' ' :: (J ++ r)) := by
    rw [show "flags : ".toList = ['f', 'l', 'a', 'g', 's', ' ', ':', ' '] from rfl]
    simp
  have hs4 : (' ' :: (J ++ r)).dropWhile pyIsSpace = J ++ r := by
    rw [List.dropWhile_cons_of_pos (by decide)]
    obtain ⟨c, m, hcm, hcns⟩ := hJhead
    rw [hcm, List.cons_append, List.dropWhile_cons_of_neg hcns]
  have hg3 : (J ++ r).takeWhile (fun c => !(c = '\n')) = J := by
    rw [takeWhile_append_all _ _ _ (fun a ha => by simpa using hJnl a ha)]
    rcases hr with rfl | ⟨r2, rfl⟩
    · simp
    · rw [List.takeWhile_cons_of_neg (by decide), List.append_nil]
  have hsc : (('f' :: 'l' :: 'a' :: 'g' :: 's' ::
      (' ' :: ':' :: ' ' :: (J ++ r))).drop 5).dropWhile pyIsSpace =
      ':' :: (' ' :: (J ++ r)) := by
    rw [show ('f' :: 'l' :: 'a' :: 'g' :: 's' ::
      (' ' :: ':' :: ' ' :: (J ++ r))).drop 5 = ' ' :: ':' :: ' ' :: (J ++ r) from rfl]
    rw [List.dropWhile_cons_of_pos (by decide), List.dropWhile_cons_of_neg (by decide)]
  rw [hshape, matchFlagsAt,
    if_pos (show ('f' :: 'l' :: 'a' :: 'g' :: 's' ::
      (' ' :: ':' :: ' ' :: (J ++ r))).take 5 = "flags".toList from rfl)]
  simp only [hsc]
  rw [hs4, hg3, List.drop_left J r]

lemma matchFlagsAt_lt (s g3 r : List Char) (h : matchFlagsAt s = some (g3, r)) :
    r.length < s.length := by
  rw [matchFlagsAt] at h
  by_cases h5 : s.take 5 = "flags".toList
  · rw [if_pos h5] at h
    dsimp only at h
    have hlen5 : 5 ≤ s.length := by
      have hc := congrArg List.length h5
      simp at hc
      omega
    split at h
    · rename_i s3 heq
      have h2 := Option.some.inj h
      have hrB : r = (s3.dropWhile pyIsSpace).drop
          ((s3.dropWhile pyIsSpace).takeWhile (fun c => !(c = '\n'))).length :=
        ((Prod.ext_iff.mp h2).2).symm
      have h1 : r.length ≤ (s3.dropWhile pyIsSpace).length := by
        rw [hrB]
        simp
      have h2' : (s3.dropWhile pyIsSpace).length ≤ s3.length :=
        length_dropWhile_le' pyIsSpace s3
      have h3 : (':' :: s3).length ≤ (s.drop 5).length := by
        rw [← heq]
        exact length_dropWhile_le' pyIsSpace (s.drop 5)
      have h6 : (s.drop 5).length = s.length - 5 := by simp
      simp only [List.length_cons] at h3
      omega
    · cases h
  · rw [if_neg h5] at h
    cases h

lemma findFlagsGo_nil (fuel : Nat) (b : Bool) : findFlagsGo fuel [] b = [] := by
  cases fuel <;> rfl

lemma findFlagsGo_match (fuel : Nat) (c : Char) (rest g3 r : List Char)
    (h : matchFlagsAt (c :: rest) = some (g3, r)) :
    findFlagsGo (fuel + 1) (c :: rest) true = g3 :: findFlagsGo fuel r false := by
  simp only [findFlagsGo, h, if_true]

lemma findFlagsGo_skip (fuel : Nat) (c : Char) (rest : List Char)
    (h : matchFlagsAt (c :: rest) = none) :
    findFlagsGo (fuel + 1) (c :: rest) true =
      findFlagsGo fuel rest (decide (c = '\n')) := by
  simp only [findFlagsGo, h, if_true]

lemma findFlagsGo_notStart (fuel : Nat) (c : Char) (rest : List Char) :
    findFlagsGo (fuel + 1) (c :: rest) false =
      findFlagsGo fuel rest (decide (c = '\n')) := by
  simp only [findFlagsGo, Bool.false_eq_true, if_false]

lemma findFlagsGo_fuel (fuel1 : Nat) :
    ∀ (fuel2 : Nat) (s : List Char) (b : Bool), s.length < fuel1 →
      s.length < fuel2 → findFlagsGo fuel1 s b = findFlagsGo fuel2 s b := by
  induction fuel1 with
  | zero => intro fuel2 s b h1 _; omega
  | succ f1 ih =>
    intro fuel2 s b h1 h2
    cases s with
    | nil => rw [findFlagsGo_nil, findFlagsGo_nil]
    | cons c rest =>
      cases fuel2 with
      | zero => omega
      | succ f2 =>
        simp only [List.length_cons] at h1 h2
        cases b with
        | false =>
          rw [findFlagsGo_notStart, findFlagsGo_notStart]
          exact ih f2 rest _ (by omega) (by omega)
        | true =>
          cases hm : matchFlagsAt (c :: rest) with
          | none =>
            rw [findFlagsGo_skip f1 c rest hm, findFlagsGo_skip f2 c rest hm]
            exact ih f2 rest _ (by omega) (by omega)
          | some p =>
            obtain ⟨g3, r⟩ := p
            have hlt := matchFlagsAt_lt (c :: rest) g3 r hm
            simp only [List.length_cons] at hlt
            rw [findFlagsGo_match f1 c rest g3 r hm, findFlagsGo_match f2 c rest g3 r hm,
              ih f2 r false (by omega) (by omega)]

lemma findFlags_two_lines (Ja Jb : List Char)
    (hJah : ∃ c m, Ja = c :: m ∧ ¬ pyIsSpace c)
    (hJanl : ∀ a ∈ Ja, ¬ a = '\n')
    (hJbh : ∃ c m, Jb = c :: m ∧ ¬ pyIsSpace c)
    (hJbnl : ∀ a ∈ Jb, ¬ a = '\n') :
    findFlags (("flags : ".toList ++ Ja) ++
      '\n' :: ("flags : ".toList ++ Jb)) = [Ja, Jb] := by
  set L2 : List Char := "flags : ".toList ++ Jb with hL2
  have hm1 : matchFlagsAt (("flags : ".toList ++ Ja) ++ '\n' :: L2) =
      some (Ja, '\n' :: L2) := by
    rw [List.append_assoc]
    exact matchFlagsAt_line Ja ('\n' :: L2) hJah hJanl (Or.inr ⟨L2, rfl⟩)
  have hm2 : matchFlagsAt L2 = some (Jb, []) := by
    have := matchFlagsAt_line Jb [] hJbh hJbnl (Or.inl rfl)
    rwa [List.append_nil] at this
  obtain ⟨c1, m1, hJa1, _⟩ := hJah
  have hI : (("flags : ".toList ++ Ja) ++ '\n' :: L2) ≠ [] := by simp
  obtain ⟨d, ds, hds⟩ : ∃ d ds, ("flags : ".toList ++ Ja) ++ '\n' :: L2 = d :: ds :=
    List.exists_cons_of_ne_nil hI
  rw [findFlags, hds, List.length_cons,
    findFlagsGo_match (ds.length + 1) d ds Ja ('\n' :: L2) (hds ▸ hm1)]
  have hlen : ('\n' :: L2).length < ds.length + 1 := by
    have h0 := congrArg List.length hds
    simp only [List.length_append, List.length_cons,
      show ("flags : ".toList).length = 8 from rfl] at h0 ⊢
    omega
  rw [findFlagsGo_fuel (ds.length + 1) (L2.length + 2) ('\n' :: L2) false hlen
    (by simp)]
  rw [show L2.length + 2 = (L2.length + 1) + 1 from rfl,
    findFlagsGo_notStart (L2.length + 1) '\n' L2,
    show (decide ('\n' = '\n')) = true from rfl]
  have hL2ne : L2 ≠ [] := by simp [hL2]
  obtain ⟨e, es, hes⟩ : ∃ e es, L2 = e :: es := List.exists_cons_of_ne_nil hL2ne
  rw [hes]
  simp only [List.length_cons]
  rw [findFlagsGo_match (es.length + 1) e es Jb [] (hes ▸ hm2), findFlagsGo_nil]

lemma icCh_single (c : Char) (x : List Char) : icCh c [x] = x := rfl

lemma splitWsGo_skip_tok (t : List Char) (r acc : List Char)
    (h : ∀ c ∈ t, ¬ pyIsSpace c) :
    splitWsGo (t ++ r) acc = splitWsGo r (t.reverse ++ acc) := by
  induction t generalizing acc with
  | nil => simp
  | cons c m ih =>
    rw [List.cons_append, splitWsGo]
    simp only [if_neg (h c (List.mem_cons_self c m))]
    rw [ih (c :: acc) (fun x hx => h x (List.mem_cons_of_mem c hx))]
    simp

lemma splitWsGo_space (r acc : List Char) (h : acc ≠ []) :
    splitWsGo (' ' :: r) acc = acc.reverse :: splitWsGo r [] := by
  cases acc with
  | nil => exact absurd rfl h
  | cons x xs => rfl

lemma splitWsGo_nil_acc (acc : List Char) (h : acc ≠ []) :
    splitWsGo [] acc = [acc.reverse] := by
  cases acc with
  | nil => exact absurd rfl h
  | cons x xs => rfl

lemma wsRound (ts : List String) (h : ts ≠ []) (hc : ∀ t ∈ ts, cleanToken t) :
    pysplitWs (icCh ' ' (ts.map String.toList)) = ts.map String.toList := by
  induction ts with
  | nil => exact absurd rfl h
  | cons t rest ih =>
    obtain ⟨hne, hns⟩ := hc t (List.mem_cons_self t rest)
    cases rest with
    | nil =>
      rw [List.map_cons, List.map_nil, icCh_single, pysplitWs]
      have hA := splitWsGo_skip_tok t.toList [] [] hns
      rw [List.append_nil, List.append_nil] at hA
      rw [hA, splitWsGo_nil_acc _
        (fun h0 => toList_ne_nil t hne (List.reverse_eq_nil_iff.mp h0))]
      simp
    | cons u rest2 =>
      have ih2 := ih (List.cons_ne_nil u rest2)
        (fun x hx => hc x (List.mem_cons_of_mem t hx))
      rw [pysplitWs] at ih2
      simp only [List.map_cons] at ih2 ⊢
      rw [icCh_cons, pysplitWs, splitWsGo_skip_tok t.toList _ [] hns, List.append_nil,
        splitWsGo_space _ _
          (fun h0 => toList_ne_nil t hne (List.reverse_eq_nil_iff.mp h0)),
        List.reverse_reverse, ih2]

lemma spRound (ts : List String) (h : ts ≠ []) (hc : ∀ t ∈ ts, cleanToken t) :
    pysplitChar ' ' (icCh ' ' (ts.map String.toList)) = ts.map String.toList := by
  induction ts with
  | nil => exact absurd rfl h
  | cons t rest ih =>
    obtain ⟨hne, hns⟩ := hc t (List.mem_cons_self t rest)
    have hsp : ' ' ∉ t.toList := fun hmem => hns ' ' hmem (by decide)
    cases rest with
    | nil =>
      rw [List.map_cons, List.map_nil, icCh_single,
        pysplitChar_no_sep ' ' t.toList hsp]
    | cons u rest2 =>
      have ih2 := ih (List.cons_ne_nil u rest2)
        (fun x hx => hc x (List.mem_cons_of_mem t hx))
      simp only [List.map_cons] at ih2 ⊢
      rw [icCh_cons, pysplitChar_append ' ' t.toList _ hsp, ih2]

lemma extract_twoFlagLines (a b : List String) (ha : a ≠ []) (hb : b ≠ [])
    (hca : ∀ t ∈ a, cleanToken t) (hcb : ∀ t ∈ b, cleanToken t) :
    extract_cpu_flags (twoFlagLines a b) = a.toFinset ∪ b.toFinset := by
  have hJah := J_head a ha hca
  have hJal := J_last a ha hca
  have hJanl := J_no_nl a hca
  have hJbh := J_head b hb hcb
  have hJbl := J_last b hb hcb
  have hJbnl := J_no_nl b hcb
  have hnl1 : '\n' ∉ "flags : ".toList ++ icCh ' ' (a.map String.toList) := by
    intro hmem
    rcases List.mem_append.mp hmem with hmem0 | hmem0
    · revert hmem0
      decide
    · exact hJanl '\n' hmem0 rfl
  have hnl2 : '\n' ∉ "flags : ".toList ++ icCh ' ' (b.map String.toList) := by
    intro hmem
    rcases List.mem_append.mp hmem with hmem0 | hmem0
    · revert hmem0
      decide
    · exact hJbnl '\n' hmem0 rfl
  have hstrip1 : pystrip ("flags : ".toList ++ icCh ' ' (a.map String.toList)) =
      "flags : ".toList ++ icCh ' ' (a.map String.toList) := by
    obtain ⟨r1, d1, hrd1, hd1⟩ := hJal
    refine pystrip_id _ ⟨'f', "lags : ".toList ++ icCh ' ' (a.map String.toList),
      rfl, by decide⟩ ⟨"flags : ".toList ++ r1, d1, ?_, hd1⟩
    rw [hrd1]
    exact (List.append_assoc _ _ _).symm
  have hstrip2 : pystrip ("flags : ".toList ++ icCh ' ' (b.map String.toList)) =
      "flags : ".toList ++ icCh ' ' (b.map String.toList) := by
    obtain ⟨r1, d1, hrd1, hd1⟩ := hJbl
    refine pystrip_id _ ⟨'f', "lags : ".toList ++ icCh ' ' (b.map String.toList),
      rfl, by decide⟩ ⟨"flags : ".toList ++ r1, d1, ?_, hd1⟩
    rw [hrd1]
    exact (List.append_assoc _ _ _).symm
  simp only [extract_cpu_flags]
  rw [show (twoFlagLines a b).toList =
    ("flags : ".toList ++ icCh ' ' (a.map String.toList)) ++
      '\n' :: ("flags : ".toList ++ icCh ' ' (b.map String.toList)) from rfl]
  rw [pysplitChar_append '\n' _ _ hnl1, pysplitChar_no_sep '\n' _ hnl2]
  simp only [List.map_cons, List.map_nil]
  rw [hstrip1, hstrip2, icCh_cons, icCh_single]
  rw [findFlags_two_lines _ _ hJah hJanl hJbh hJbnl]
  simp only [List.map_cons, List.map_nil]
  rw [wsRound a ha hca, wsRound b hb hcb, spRound a ha hca, spRound b hb hcb]
  simp only [List.flatten_cons, List.flatten_nil, List.append_nil]
  rw [List.map_append, List.map_map,
    show ((fun l => String.mk l) ∘ String.toList) = (id : String → String) from
      funext (fun s => rfl),
    List.map_id, List.map_map,
    show ((fun l => String.mk l) ∘ String.toList) = (id : String → String) from
      funext (fun s => rfl),
    List.map_id, List.toFinset_append]

/-- Claim C5: flag extraction is union-based and order-independent.  For
two synthetic flags lines carrying well-formed token lists with disjoint
token sets, the extracted set is the union of the tokens of both lines
(so it contains the tokens of both), and swapping the two lines yields
the same set. -/
theorem C5_union_order_independent (a b : List String) (ha : a ≠ []) (hb : b ≠ [])
    (hca : ∀ t ∈ a, cleanToken t) (hcb : ∀ t ∈ b, cleanToken t)
    (hdis : ∀ t ∈ a, t ∉ b) :
    extract_cpu_flags (twoFlagLines a b) = a.toFinset ∪ b.toFinset ∧
    (∀ t ∈ a, t ∈ extract_cpu_flags (twoFlagLines a b)) ∧
    (∀ t ∈ b, t ∈ extract_cpu_flags (twoFlagLines a b)) ∧
    extract_cpu_flags (twoFlagLines b a) = extract_cpu_flags (twoFlagLines a b) := by
  have h1 := extract_twoFlagLines a b ha hb hca hcb
  have h2 := extract_twoFlagLines b a hb ha hcb hca
  refine ⟨h1, ?_, ?_, ?_⟩
  · intro t ht
    rw [h1]
    exact Finset.mem_union_left _ (List.mem_toFinset.mpr ht)
  · intro t ht
    rw [h1]
    exact Finset.mem_union_right _ (List.mem_toFinset.mpr ht)
  · rw [h1, h2, Finset.union_comm]

/-- Witness for claim C5 on two one-token flags lines. -/
theorem C5_witness :
    extract_cpu_flags (twoFlagLines ["aa"] ["bb"]) =
      (["aa"] : List String).toFinset ∪ (["bb"] : List String).toFinset ∧
    (∀ t ∈ (["aa"] : List String),
      t ∈ extract_cpu_flags (twoFlagLines ["aa"] ["bb"])) ∧
    (∀ t ∈ (["bb"] : List String),
      t ∈ extract_cpu_flags (twoFlagLines ["aa"] ["bb"])) ∧
    extract_cpu_flags (twoFlagLines ["bb"] ["aa"]) =
      extract_cpu_flags (twoFlagLines ["aa"] ["bb"]) :=
  C5_union_order_independent ["aa"] ["bb"] (by decide) (by decide)
    (by intro t ht; rw [List.mem_singleton] at ht; subst ht
        exact ⟨by decide, by decide⟩)
    (by intro t ht; rw [List.mem_singleton] at ht; subst ht
        exact ⟨by decide, by decide⟩)
    (by decide)
